import Mathlib

/-!
Shallow embedding of the MPM3D simulation core (`src/simulation3d/mpm/mpm3.cpp`
of the taichi repository).  Floating-point arithmetic is modelled by exact
rational arithmetic (`ℚ`), except for the boundary-condition handler whose
friction branch uses a square root and is therefore modelled over `ℝ`.
Machine integers (`int64`) are modelled by `ℕ`/`ℤ`; the tick counters in the
program are non-negative and far from overflow.
-/

/-! ### The 1D interpolation kernel -/

/-- The 1D interpolation kernel `w` from mpm3.cpp: take the absolute value,
then evaluate one of the two cubic branches (`x < 1` and `1 ≤ x`).  This is
the value the formula computes; the separate predicate `wDom` records the
`assert(x <= 2)` precondition of the C++ function. -/
def wRaw (x : ℚ) : ℚ :=
  if |x| < 1 then
    |x| ^ 3 / 2 - |x| ^ 2 + 2 / 3
  else
    -|x| ^ 3 / 6 + |x| ^ 2 - 2 * |x| + 4 / 3

/-- The asserted precondition of `w` and `dw`: the offset magnitude is at
most 2 (`assert(x <= 2)` after taking the absolute value). -/
def wDom (x : ℚ) : Prop := |x| ≤ 2

instance (x : ℚ) : Decidable (wDom x) := by
  unfold wDom; infer_instance

/-- The 1D kernel derivative `dw` from mpm3.cpp: extract the sign `s`,
evaluate the derivative branches on `s * x`, multiply the result by `s`. -/
def dwRaw (x : ℚ) : ℚ :=
  let s : ℚ := if x < 0 then -1 else 1
  let y := s * x
  s * (if y < 1 then 3 / 2 * y ^ 2 - 2 * y else -(1 / 2) * y ^ 2 + 2 * y - 2)

/-! ### Vectors, matrices and the particle record -/

/-- 3D vector over `ℚ` (`Vector3` of the C++ code). -/
abbrev V3 := ℚ × ℚ × ℚ

/-- Integer grid index triple (`Vector3i` / grid index `ind`). -/
abbrev I3 := ℤ × ℤ × ℤ

/-- A 3×3 matrix stored as its three columns, matching the column-major
`glm::mat3` used by the C++ code (`m.1` is column 0, etc.). -/
abbrev M3 := V3 × V3 × V3

/-- Matrix–vector product: linear combination of the columns. -/
def m3vec (m : M3) (v : V3) : V3 :=
  v.1 • m.1 + v.2.1 • m.2.1 + v.2.2 • m.2.2

/-- Matrix–matrix product, columnwise. -/
def m3mul (a b : M3) : M3 :=
  (m3vec a b.1, m3vec a b.2.1, m3vec a b.2.2)

/-- The identity matrix (`Matrix(1)` in the C++ code). -/
def m3id : M3 := ((1, 0, 0), (0, 1, 0), (0, 0, 1))

/-- Outer product `a * bᵀ` (`glm::outerProduct(a, b)` and the explicit
column-major `Matrix out(aa[0]*bb[0], …)` constructor of resample):
column `j` is `b j • a`. -/
def outerQ (a b : V3) : M3 := (b.1 • a, b.2.1 • a, b.2.2 • a)

/-- Cast a grid index to a position vector. -/
def v3ofI3 (ind : I3) : V3 := ((ind.1 : ℚ), (ind.2.1 : ℚ), (ind.2.2 : ℚ))

/-- Separable 3D kernel weight: product of the per-axis 1D weights
(`w(a.x) * w(a.y) * w(a.z)`). -/
def w3 (a : V3) : ℚ := wRaw a.1 * wRaw a.2.1 * wRaw a.2.2

/-- Separable 3D kernel gradient (`dw(const Vector3&)`): per-axis
derivative times the other two axes' weights. -/
def dw3 (a : V3) : V3 :=
  (dwRaw a.1 * wRaw a.2.1 * wRaw a.2.2,
   wRaw a.1 * dwRaw a.2.1 * wRaw a.2.2,
   wRaw a.1 * wRaw a.2.1 * dwRaw a.2.2)

/-- The asserted kernel domain, per axis, for a 3D offset. -/
def wDom3 (a : V3) : Prop := wDom a.1 ∧ wDom a.2.1 ∧ wDom a.2.2

instance (a : V3) : Decidable (wDom3 a) := by
  unfold wDom3; infer_instance

/-- Particle activation state (`MPM3Particle::{INACTIVE, BUFFER, UPDATING}`). -/
inductive PState where
  | inactive
  | buffer
  | updating
deriving DecidableEq, Repr

/-- The particle record `MPM3Particle`: position, velocity, APIC affine
matrix `apic_b`, elastic/plastic deformation gradients and the deformation
cache, mass, activation state and last-update tick. -/
structure MParticle where
  pos : V3
  v : V3
  apic_b : M3
  dg_e : M3
  dg_p : M3
  dg_cache : M3
  mass : ℚ
  state : PState
  last_update : ℤ
deriving DecidableEq, Repr

/-! ### The rasterization region

`get_bounded_rasterization_region` is declared in `mpm3.h`, which is not
among the provided sources. -/

/-- Modelled from the spec: `get_bounded_rasterization_region`, per axis.
The spec restricts iteration to the 4×4×4 neighborhood (64 nodes)
surrounding each particle — the integer indices `⌊x⌋-1 … ⌊x⌋+2` per axis —
"bounded" by intersecting with the grid index box `0 … res` (the grid has
`res+1` nodes per axis). -/
def regionAxis (r : ℤ) (x : ℚ) : Finset ℤ :=
  Finset.Icc (max 0 (⌊x⌋ - 1)) (min r (⌊x⌋ + 2))

/-- Modelled from the spec: the bounded 4×4×4 rasterization region of a
particle position, as a finite set of grid index triples. -/
def region (res : I3) (pos : V3) : Finset I3 :=
  regionAxis res.1 pos.1 ×ˢ (regionAxis res.2.1 pos.2.1 ×ˢ regionAxis res.2.2 pos.2.2)

/-- The full grid index box: `res+1` nodes per axis, indices `0 … res`. -/
def gridIdx (res : I3) : Finset I3 :=
  Finset.Icc 0 res.1 ×ˢ (Finset.Icc 0 res.2.1 ×ˢ Finset.Icc 0 res.2.2)

/-- The spec's "non-degenerate" configuration for one particle: the whole
4×4×4 stencil lies inside the grid index box on every axis. -/
def fullNbhd (res : I3) (pos : V3) : Prop :=
  (1 ≤ ⌊pos.1⌋ ∧ ⌊pos.1⌋ + 2 ≤ res.1) ∧
  (1 ≤ ⌊pos.2.1⌋ ∧ ⌊pos.2.1⌋ + 2 ≤ res.2.1) ∧
  (1 ≤ ⌊pos.2.2⌋ ∧ ⌊pos.2.2⌋ + 2 ≤ res.2.2)

instance (res : I3) (pos : V3) : Decidable (fullNbhd res pos) := by
  unfold fullNbhd; infer_instance

/-! ### Rasterize (particle → grid scatter) and grid normalization

`MPM3D::rasterize` clears the grid, scatters `weight * mass` into
`grid_mass` and `weight * mass * (v + 3 * apic_b * d_pos)` into
`grid_velocity` (with `d_pos = ind - pos`), then divides the velocity of
every node whose mass is positive by that mass.  Locking only serialises
the accumulation, so the per-node result is the plain sum over particles. -/

/-- One particle's contribution to `grid_mass[ind]`:
`w(ind - pos) * mass` when `ind` is in the particle's bounded region. -/
def rasterMassTerm (res : I3) (p : MParticle) (ind : I3) : ℚ :=
  if ind ∈ region res p.pos then w3 (v3ofI3 ind - p.pos) * p.mass else 0

/-- Accumulated `grid_mass[ind]` after rasterize over the active list. -/
def rasterMass (ps : List MParticle) (res : I3) (ind : I3) : ℚ :=
  (ps.map fun p => rasterMassTerm res p ind).sum

/-- One particle's contribution to the momentum accumulated in
`grid_velocity[ind]`: `weight * mass * (v + 3 * apic_b * d_pos)`. -/
def rasterMomTerm (res : I3) (p : MParticle) (ind : I3) : V3 :=
  if ind ∈ region res p.pos then
    (w3 (v3ofI3 ind - p.pos) * p.mass) •
      (p.v + (3 : ℚ) • m3vec p.apic_b (v3ofI3 ind - p.pos))
  else 0

/-- Accumulated `grid_velocity[ind]` after the scatter loop of rasterize
(before normalization). -/
def rasterMom (ps : List MParticle) (res : I3) (ind : I3) : V3 :=
  (ps.map fun p => rasterMomTerm res p ind).sum

/-- `grid_velocity[ind]` after the normalization loop of rasterize:
nodes with `grid_mass > 0` are scaled by `1 / grid_mass`, all other
nodes are left untouched. -/
def gridVelNorm (ps : List MParticle) (res : I3) (ind : I3) : V3 :=
  if 0 < rasterMass ps res ind then
    (1 / rasterMass ps res ind) • rasterMom ps res ind
  else rasterMom ps res ind

/-! ### Resample (grid → particle gather) -/

/-- The grid→particle velocity gather of `MPM3D::resample`:
`Σ w(pos - ind) * grid_value[ind]` over the bounded region. -/
def gatherVel (res : I3) (g : I3 → V3) (pos : V3) : V3 :=
  ∑ ind ∈ region res pos, w3 (pos - v3ofI3 ind) • g ind

/-- `MPM3D::resample` restricted to one particle, given the normalized
grid velocity `gv` and the backup grid velocity `gvb` as functions of the
index.  Particles whose state is not `UPDATING` return immediately.
The body accumulates the gathered velocity `v`, the backup gather `bv`,
the affine accumulator `b` (outer products of grid velocity with the
negated offset), the velocity-gradient accumulator `cdg` and the visited
node `count`; then applies the `count != 64 || !apic` affine discard, the
damping factor, the PIC/FLIP velocity blend with `alpha_delta_t`, and the
multiplicative deformation-gradient update. -/
def resampleP (apic : Bool) (base_delta_t affine_damping : ℚ)
    (current_t_int : ℤ) (res : I3) (gv gvb : I3 → V3) (p : MParticle) :
    MParticle :=
  if p.state ≠ PState.updating then p
  else
    let alpha_delta_t : ℚ := if apic then 0 else 1
    let delta_t : ℚ := base_delta_t * ((current_t_int - p.last_update : ℤ) : ℚ)
    let v := gatherVel res gv p.pos
    let bv := gatherVel res gvb p.pos
    let b := ∑ ind ∈ region res p.pos,
      w3 (p.pos - v3ofI3 ind) • outerQ (gv ind) (v3ofI3 ind - p.pos)
    let cdg0 := ∑ ind ∈ region res p.pos,
      outerQ (gv ind) (dw3 (p.pos - v3ofI3 ind))
    let count := (region res p.pos).card
    let b2 := if count ≠ 64 ∨ apic = false then (0 : M3) else b
    let damping := max 0 (1 - delta_t * affine_damping)
    let cdg := m3id + delta_t • cdg0
    { p with
      apic_b := damping • b2,
      v := (1 - alpha_delta_t) • v + alpha_delta_t • (v - bv + p.v),
      dg_e := m3mul cdg p.dg_e,
      dg_cache := m3mul (m3mul cdg p.dg_e) p.dg_p }

/-! ### Position integration and clamping (substep, lines 302–311) -/

/-- Modelled from the spec: the `clamp(x, lo, hi)` helper of the math
utilities (declared outside the provided sources): clamp a value into
`[lo, hi]`. -/
def clampQ (x lo hi : ℚ) : ℚ := min (max x lo) hi

/-- The per-particle position-integration step of `MPM3D::substep`:
an `UPDATING` particle moves by `(current_t_int - last_update) *
base_delta_t * v`, records the tick, and is clamped per axis into
`[0, res - eps]`; every other particle is untouched.  `eps` is the small
positive constant declared in the header (not among the provided
sources). -/
def integrateP (current_t_int : ℤ) (base_delta_t eps : ℚ) (res : I3)
    (p : MParticle) : MParticle :=
  if p.state = PState.updating then
    let pos1 := p.pos + (((current_t_int - p.last_update : ℤ) : ℚ) * base_delta_t) • p.v
    { p with
      pos := (clampQ pos1.1 0 ((res.1 : ℚ) - eps),
              clampQ pos1.2.1 0 ((res.2.1 : ℚ) - eps),
              clampQ pos1.2.2 0 ((res.2.2 : ℚ) - eps)),
      last_update := current_t_int }
  else p

/-- The per-axis domain invariant of particle positions: `[0, res)`. -/
def inBounds (res : I3) (q : V3) : Prop :=
  (0 ≤ q.1 ∧ q.1 < (res.1 : ℚ)) ∧
  (0 ≤ q.2.1 ∧ q.2.1 < (res.2.1 : ℚ)) ∧
  (0 ≤ q.2.2 ∧ q.2.2 < (res.2.2 : ℚ))

instance (res : I3) (q : V3) : Decidable (inBounds res q) := by
  unfold inBounds; infer_instance

/-! ### Asynchronous tick scheduling (substep, lines 271–277) -/

/-- The aligned tick increment of the asynchronous scheduler:
`t_int_increment = original_t_int_increment - current_t_int %
original_t_int_increment`.  The tick counter is an `int64` that starts at
0 and only grows, so it is modelled by `ℕ` (C++ `%` agrees with `Nat.mod`
on non-negative operands). -/
def t_int_increment_of (pot tick : ℕ) : ℕ := pot - tick % pot

/-! ### Grid boundary conditions (grid_apply_boundary_conditions)

The friction branch normalizes the tangential direction with a square
root, so this function is modelled over `ℝ`. -/

/-- 3D vector over `ℝ` for the boundary handler. -/
abbrev V3R := ℝ × ℝ × ℝ

/-- Dot product over `ℝ` (`glm::dot`). -/
def dotR (a b : V3R) : ℝ := a.1 * b.1 + a.2.1 * b.2.1 + a.2.2 * b.2.2

/-- Euclidean length (`glm::length`). -/
noncomputable def lengthR (a : V3R) : ℝ := Real.sqrt (dotR a a)

/-- `glm::normalize`: scale by the reciprocal length. -/
noncomputable def normalizeR (a : V3R) : V3R := (1 / lengthR a) • a

/-- Modelled from the spec: the `clamp` helper over `ℝ` used by the
Coulomb-friction branch. -/
def clampR (x lo hi : ℝ) : ℝ := min (max x lo) hi

/-- The per-node velocity rewrite of
`MPM3D::grid_apply_boundary_conditions`, as a function of the sampled
signed distance `phi`, the friction coefficient `mu`, the temporal
derivative `td` of the level set, the spatial gradient (normal) `n`, and
the incoming grid velocity `vIn`.  Nodes with `phi` outside `[-3, 1]` are
skipped; otherwise the velocity is made relative to the boundary velocity
`td • n`, rewritten by the sticky / friction / penetration regime, and the
boundary velocity is added back. -/
noncomputable def gridBCNode (phi mu td : ℝ) (n vIn : V3R) : V3R :=
  if 1 < phi ∨ phi < -3 then vIn
  else
    let bv := td • n
    let v0 := vIn - bv
    let v1 :=
      if 0 < phi then
        if mu < 0 then (0 : V3R)
        else
          let pressure := max (-(dotR v0 n)) 0
          let t0 := v0 - dotR v0 n • n
          let t1 := if lengthR t0 > 1e-6 then normalizeR t0 else t0
          let fric := -(clampR (dotR t1 v0) (-(mu * pressure)) (mu * pressure))
          v0 + pressure • n + fric • t1
      else if phi < 0 then (max 0 (dotR v0 n)) • n
      else v0
    v1 + bv

/-- A concrete particle used by the witnesses: unit mass, identity
deformation gradients. -/
def mkParticle (pos v : V3) (st : PState) (lu : ℤ) : MParticle :=
  { pos := pos, v := v, apic_b := 0, dg_e := m3id, dg_p := m3id,
    dg_cache := m3id, mass := 1, state := st, last_update := lu }

/-! ### Kernel and transfer lemmas -/

/-- Partition of unity of the four in-support stencil values: for a
fractional offset `f ∈ [0,1)` the kernel values at offsets
`-1-f, -f, 1-f, 2-f` sum to exactly 1. -/
lemma wRaw_four_sum (f : ℚ) (h0 : 0 ≤ f) (h1 : f < 1) :
    wRaw (-1 - f) + wRaw (-f) + wRaw (1 - f) + wRaw (2 - f) = 1 := by
  have e1 : |(-1 - f : ℚ)| = 1 + f := by
    rw [abs_of_nonpos (by linarith)]; ring
  have e2 : |(-f : ℚ)| = f := by
    rw [abs_of_nonpos (by linarith)]; ring
  have e3 : |(1 - f : ℚ)| = 1 - f := by
    rw [abs_of_nonneg (by linarith)]
  have e4 : |(2 - f : ℚ)| = 2 - f := by
    rw [abs_of_nonneg (by linarith)]
  rcases eq_or_lt_of_le h0 with hf0 | hf0
  · subst hf0
    norm_num [wRaw]
  · unfold wRaw
    rw [e1, e2, e3, e4,
      if_neg (by linarith : ¬ (1 + f < 1)),
      if_pos h1,
      if_pos (by linarith : (1 : ℚ) - f < 1),
      if_neg (by linarith : ¬ ((2 : ℚ) - f < 1))]
    ring

/-- All four in-support stencil offsets satisfy the kernel's asserted
domain `|x| ≤ 2`. -/
lemma wDom_four (f : ℚ) (h0 : 0 ≤ f) (h1 : f < 1) :
    wDom (-1 - f) ∧ wDom (-f) ∧ wDom (1 - f) ∧ wDom (2 - f) := by
  unfold wDom
  constructor
  · rw [abs_of_nonpos (by linarith)]; linarith
  constructor
  · rw [abs_of_nonpos (by linarith)]; linarith
  constructor
  · rw [abs_of_nonneg (by linarith)]; linarith
  · rw [abs_of_nonneg (by linarith)]; linarith

/-- Fractional part bounds used to apply the stencil lemmas. -/
lemma fract_bounds (x : ℚ) : 0 ≤ x - (⌊x⌋ : ℚ) ∧ x - (⌊x⌋ : ℚ) < 1 := by
  constructor
  · have := Int.floor_le x; linarith
  · have := Int.lt_floor_add_one x; linarith

/-- The kernel value summed over the full 4-node stencil
`⌊x⌋-1 … ⌊x⌋+2` of any position `x` equals 1. -/
lemma wRaw_stencil_sum (x : ℚ) :
    ∑ i ∈ Finset.Icc (⌊x⌋ - 1) (⌊x⌋ + 2), wRaw ((i : ℚ) - x) = 1 := by
  obtain ⟨hf0, hf1⟩ := fract_bounds x
  have hset : Finset.Icc (⌊x⌋ - 1) (⌊x⌋ + 2) =
      {⌊x⌋ - 1, ⌊x⌋, ⌊x⌋ + 1, ⌊x⌋ + 2} := by
    ext i
    simp only [Finset.mem_Icc, Finset.mem_insert, Finset.mem_singleton]
    omega
  rw [hset]
  rw [Finset.sum_insert (by simp only [Finset.mem_insert,
      Finset.mem_singleton]; push_neg; omega),
    Finset.sum_insert (by simp only [Finset.mem_insert,
      Finset.mem_singleton]; push_neg; omega),
    Finset.sum_insert (by simp only [Finset.mem_singleton]; omega),
    Finset.sum_singleton]
  have a1 : ((⌊x⌋ - 1 : ℤ) : ℚ) - x = -1 - (x - (⌊x⌋ : ℚ)) := by
    push_cast; ring
  have a2 : ((⌊x⌋ : ℤ) : ℚ) - x = -(x - (⌊x⌋ : ℚ)) := by ring
  have a3 : ((⌊x⌋ + 1 : ℤ) : ℚ) - x = 1 - (x - (⌊x⌋ : ℚ)) := by
    push_cast; ring
  have a4 : ((⌊x⌋ + 2 : ℤ) : ℚ) - x = 2 - (x - (⌊x⌋ : ℚ)) := by
    push_cast; ring
  rw [a1, a2, a3, a4]
  have h4 := wRaw_four_sum (x - (⌊x⌋ : ℚ)) hf0 hf1
  linarith

/-- The kernel value is non-negative on its asserted domain `|x| ≤ 2`. -/
lemma wRaw_nonneg (x : ℚ) (h : wDom x) : 0 ≤ wRaw x := by
  unfold wDom at h
  unfold wRaw
  have h0 : 0 ≤ |x| := abs_nonneg x
  split_ifs with hlt
  · nlinarith [abs_nonneg x]
  · nlinarith [pow_nonneg (show (0 : ℚ) ≤ 2 - |x| by linarith) 3]

/-- Any region index is within kernel range of the particle on one axis. -/
lemma regionAxis_offset_dom (r : ℤ) (x : ℚ) (i : ℤ) (hi : i ∈ regionAxis r x) :
    wDom ((i : ℚ) - x) := by
  unfold regionAxis at hi
  rw [Finset.mem_Icc] at hi
  obtain ⟨h1, h2⟩ := hi
  have hl : ⌊x⌋ - 1 ≤ i := le_trans (le_max_right _ _) h1
  have hr : i ≤ ⌊x⌋ + 2 := le_trans h2 (min_le_right _ _)
  have hfl := Int.floor_le x
  have hfu := Int.lt_floor_add_one x
  have hcl : ((⌊x⌋ : ℚ) - 1) ≤ (i : ℚ) := by exact_mod_cast hl
  have hcr : (i : ℚ) ≤ (⌊x⌋ : ℚ) + 2 := by exact_mod_cast hr
  unfold wDom
  rw [abs_le]
  constructor <;> linarith

/-- One axis of the bounded region always stays inside `[0, r]`. -/
lemma regionAxis_subset (r : ℤ) (x : ℚ) :
    regionAxis r x ⊆ Finset.Icc 0 r := by
  intro i hi
  unfold regionAxis at hi
  rw [Finset.mem_Icc] at hi ⊢
  omega

/-- The bounded region is always inside the grid index box. -/
lemma region_subset_grid (res : I3) (pos : V3) :
    region res pos ⊆ gridIdx res := by
  unfold region gridIdx
  exact Finset.product_subset_product (regionAxis_subset _ _)
    (Finset.product_subset_product (regionAxis_subset _ _) (regionAxis_subset _ _))

/-- When the stencil fits, the bounding `max`/`min` are inactive and the
per-axis region is the plain 4-node stencil. -/
lemma regionAxis_full (r : ℤ) (x : ℚ) (h1 : 1 ≤ ⌊x⌋) (h2 : ⌊x⌋ + 2 ≤ r) :
    regionAxis r x = Finset.Icc (⌊x⌋ - 1) (⌊x⌋ + 2) := by
  unfold regionAxis
  rw [max_eq_right (by omega), min_eq_right h2]

/-- Membership in the 3D region is per-axis membership. -/
lemma mem_region_iff (res : I3) (pos : V3) (ind : I3) :
    ind ∈ region res pos ↔
      ind.1 ∈ regionAxis res.1 pos.1 ∧ ind.2.1 ∈ regionAxis res.2.1 pos.2.1 ∧
        ind.2.2 ∈ regionAxis res.2.2 pos.2.2 := by
  unfold region
  rw [Finset.mem_product, Finset.mem_product]

/-- The kernel's asserted domain is symmetric in the sign of the offset. -/
lemma wDom_sub_comm (a b : ℚ) : wDom (a - b) ↔ wDom (b - a) := by
  unfold wDom
  rw [abs_sub_comm]

/-- A particle whose full stencil is inside the grid scatters exactly its
own mass over the grid. -/
lemma raster_single_mass (res : I3) (p : MParticle) (h : fullNbhd res p.pos) :
    ∑ ind ∈ gridIdx res, rasterMassTerm res p ind = p.mass := by
  unfold rasterMassTerm
  rw [Finset.sum_ite_mem,
    Finset.inter_eq_right.mpr (region_subset_grid res p.pos)]
  unfold region
  rw [regionAxis_full _ _ h.1.1 h.1.2, regionAxis_full _ _ h.2.1.1 h.2.1.2,
    regionAxis_full _ _ h.2.2.1 h.2.2.2]
  simp only [Finset.sum_product]
  have hsummand : ∀ i j k : ℤ,
      w3 (v3ofI3 (i, j, k) - p.pos) * p.mass =
        wRaw ((i : ℚ) - p.pos.1) * wRaw ((j : ℚ) - p.pos.2.1) *
          wRaw ((k : ℚ) - p.pos.2.2) * p.mass := by
    intro i j k
    simp only [w3, v3ofI3, Prod.fst_sub, Prod.snd_sub]
  have hx := wRaw_stencil_sum p.pos.1
  have hy := wRaw_stencil_sum p.pos.2.1
  have hz := wRaw_stencil_sum p.pos.2.2
  calc
    ∑ i ∈ Finset.Icc (⌊p.pos.1⌋ - 1) (⌊p.pos.1⌋ + 2),
      ∑ j ∈ Finset.Icc (⌊p.pos.2.1⌋ - 1) (⌊p.pos.2.1⌋ + 2),
        ∑ k ∈ Finset.Icc (⌊p.pos.2.2⌋ - 1) (⌊p.pos.2.2⌋ + 2),
          w3 (v3ofI3 (i, j, k) - p.pos) * p.mass
      = ∑ i ∈ Finset.Icc (⌊p.pos.1⌋ - 1) (⌊p.pos.1⌋ + 2),
          ∑ j ∈ Finset.Icc (⌊p.pos.2.1⌋ - 1) (⌊p.pos.2.1⌋ + 2),
            wRaw ((i : ℚ) - p.pos.1) * wRaw ((j : ℚ) - p.pos.2.1) * p.mass := by
        refine Finset.sum_congr rfl fun i _ => Finset.sum_congr rfl fun j _ => ?_
        have : wRaw ((i : ℚ) - p.pos.1) * wRaw ((j : ℚ) - p.pos.2.1) * p.mass =
            wRaw ((i : ℚ) - p.pos.1) * wRaw ((j : ℚ) - p.pos.2.1) * p.mass *
              ∑ k ∈ Finset.Icc (⌊p.pos.2.2⌋ - 1) (⌊p.pos.2.2⌋ + 2),
                wRaw ((k : ℚ) - p.pos.2.2) := by rw [hz, mul_one]
        rw [this, Finset.mul_sum]
        refine Finset.sum_congr rfl fun k _ => ?_
        rw [hsummand i j k]; ring
    _ = ∑ i ∈ Finset.Icc (⌊p.pos.1⌋ - 1) (⌊p.pos.1⌋ + 2),
          wRaw ((i : ℚ) - p.pos.1) * p.mass := by
        refine Finset.sum_congr rfl fun i _ => ?_
        have : wRaw ((i : ℚ) - p.pos.1) * p.mass =
            wRaw ((i : ℚ) - p.pos.1) * p.mass *
              ∑ j ∈ Finset.Icc (⌊p.pos.2.1⌋ - 1) (⌊p.pos.2.1⌋ + 2),
                wRaw ((j : ℚ) - p.pos.2.1) := by rw [hy, mul_one]
        rw [this, Finset.mul_sum]
        refine Finset.sum_congr rfl fun j _ => ?_
        ring
    _ = p.mass := by
        rw [← Finset.sum_mul, hx, one_mul]

/-- `grid_mass` splits off the head particle of the active list. -/
lemma rasterMass_cons (p : MParticle) (tl : List MParticle) (res : I3)
    (ind : I3) :
    rasterMass (p :: tl) res ind = rasterMassTerm res p ind + rasterMass tl res ind := by
  simp [rasterMass]

/-- The 3D weight of a region node is non-negative. -/
lemma w3_region_nonneg (res : I3) (pos : V3) (ind : I3)
    (h : ind ∈ region res pos) : 0 ≤ w3 (v3ofI3 ind - pos) := by
  rw [mem_region_iff] at h
  have h1 := wRaw_nonneg _ (regionAxis_offset_dom _ _ _ h.1)
  have h2 := wRaw_nonneg _ (regionAxis_offset_dom _ _ _ h.2.1)
  have h3 := wRaw_nonneg _ (regionAxis_offset_dom _ _ _ h.2.2)
  unfold w3
  simp only [Prod.fst_sub, Prod.snd_sub, v3ofI3] at h1 h2 h3 ⊢
  exact mul_nonneg (mul_nonneg h1 h2) h3

/-- Each particle's mass contribution to a node is non-negative. -/
lemma rasterMassTerm_nonneg (res : I3) (p : MParticle) (ind : I3)
    (hm : 0 ≤ p.mass) : 0 ≤ rasterMassTerm res p ind := by
  unfold rasterMassTerm
  split_ifs with h
  · exact mul_nonneg (w3_region_nonneg _ _ _ h) hm
  · exact le_refl 0

/-- The accumulated node mass is non-negative for non-negative masses. -/
lemma rasterMass_nonneg (ps : List MParticle) (res ind : I3)
    (hm : ∀ p ∈ ps, 0 ≤ p.mass) : 0 ≤ rasterMass ps res ind := by
  refine List.sum_nonneg fun x hx => ?_
  obtain ⟨p, hp, rfl⟩ := List.mem_map.mp hx
  exact rasterMassTerm_nonneg res p ind (hm p hp)

/-- A particle contributing zero mass to a node contributes zero
momentum to it. -/
lemma rasterMomTerm_of_massTerm_zero (res : I3) (p : MParticle) (ind : I3)
    (h : rasterMassTerm res p ind = 0) : rasterMomTerm res p ind = 0 := by
  unfold rasterMassTerm at h
  unfold rasterMomTerm
  split_ifs at h ⊢ with hmem
  · rw [h, zero_smul]
  · rfl

/-- A node whose accumulated mass vanishes has a vanishing accumulated
momentum (all weights are non-negative). -/
lemma rasterMom_of_mass_zero (ps : List MParticle) (res ind : I3)
    (hm : ∀ p ∈ ps, 0 ≤ p.mass) (h0 : rasterMass ps res ind = 0) :
    rasterMom ps res ind = 0 := by
  induction ps with
  | nil => rfl
  | cons p tl ih =>
    rw [rasterMass_cons] at h0
    have hterm := rasterMassTerm_nonneg res p ind (hm p (List.mem_cons_self p tl))
    have htail := rasterMass_nonneg tl res ind
      fun q hq => hm q (List.mem_cons_of_mem p hq)
    have h1 : rasterMassTerm res p ind = 0 := by linarith
    have h2 : rasterMass tl res ind = 0 := by linarith
    show rasterMom (p :: tl) res ind = 0
    simp only [rasterMom, List.map_cons, List.sum_cons]
    rw [rasterMomTerm_of_massTerm_zero _ _ _ h1, zero_add]
    exact ih (fun q hq => hm q (List.mem_cons_of_mem p hq)) h2

/-- Clamping into `[0, r - eps]` lands inside `[0, r)`. -/
lemma clampQ_mem (a r eps : ℚ) (he : 0 < eps) (hr : eps ≤ r) :
    0 ≤ clampQ a 0 (r - eps) ∧ clampQ a 0 (r - eps) < r := by
  unfold clampQ
  constructor
  · exact le_min (le_max_right a 0) (by linarith)
  · exact lt_of_le_of_lt (min_le_right _ _) (by linarith)

/-! ### Claim theorems -/

/-- C1: After rasterize, the total mass accumulated over all grid nodes
equals the total mass of the active particles, for every configuration in
which each particle's full 4×4×4 interpolation neighborhood lies inside
the grid. -/
theorem C1_mass_conservation (ps : List MParticle) (res : I3)
    (h : ∀ p ∈ ps, fullNbhd res p.pos) :
    ∑ ind ∈ gridIdx res, rasterMass ps res ind = (ps.map MParticle.mass).sum := by
  induction ps with
  | nil => simp [rasterMass]
  | cons p tl ih =>
    simp only [rasterMass_cons, List.map_cons, List.sum_cons]
    rw [Finset.sum_add_distrib,
      raster_single_mass res p (h p (List.mem_cons_self p tl)),
      ih fun q hq => h q (List.mem_cons_of_mem p hq)]

/-- Witness for C1 at one interior particle in a 4³-node grid. -/
theorem C1_mass_conservation_witness :
    (∀ p ∈ [mkParticle (3/2, 3/2, 3/2) 0 PState.updating 0], fullNbhd (3, 3, 3) p.pos) ∧
      ∑ ind ∈ gridIdx (3, 3, 3),
        rasterMass [mkParticle (3/2, 3/2, 3/2) 0 PState.updating 0] (3, 3, 3) ind =
        ([mkParticle (3/2, 3/2, 3/2) 0 PState.updating 0].map MParticle.mass).sum :=
  ⟨by norm_num [mkParticle, fullNbhd],
    C1_mass_conservation _ _ (by norm_num [mkParticle, fullNbhd])⟩

/-- C2 counterexample: at fractional offset `f = 1/2` the five-point sum
`Σ_{i=-2}^{2} w(i - f)` is not 1 — the `i = -2` term has offset magnitude
`5/2 > 2`, outside the kernel's asserted domain, and the raw piecewise
formula makes the sum `47/48`. -/
theorem C2_five_point_counterexample :
    ¬ wDom ((-2 : ℚ) - 1 / 2) ∧
      ∑ i ∈ Finset.Icc (-2 : ℤ) 2, wRaw ((i : ℚ) - 1 / 2) ≠ 1 := by
  constructor
  · unfold wDom
    rw [abs_of_nonpos (by norm_num)]
    norm_num
  · have hset : Finset.Icc (-2 : ℤ) 2 = {-2, -1, 0, 1, 2} := by decide
    rw [hset, Finset.sum_insert (by decide), Finset.sum_insert (by decide),
      Finset.sum_insert (by decide), Finset.sum_insert (by decide),
      Finset.sum_singleton]
    have v1 : wRaw ((-2 : ℤ) - 1 / 2 : ℚ) = -1 / 48 := by
      unfold wRaw
      rw [show (((-2 : ℤ) : ℚ) - 1 / 2) = -(5 / 2) by norm_num, abs_neg,
        abs_of_nonneg (by norm_num)]
      norm_num
    have v2 : wRaw ((-1 : ℤ) - 1 / 2 : ℚ) = 1 / 48 := by
      unfold wRaw
      rw [show (((-1 : ℤ) : ℚ) - 1 / 2) = -(3 / 2) by norm_num, abs_neg,
        abs_of_nonneg (by norm_num)]
      norm_num
    have v3 : wRaw ((0 : ℤ) - 1 / 2 : ℚ) = 23 / 48 := by
      unfold wRaw
      rw [show (((0 : ℤ) : ℚ) - 1 / 2) = -(1 / 2) by norm_num, abs_neg,
        abs_of_nonneg (by norm_num)]
      norm_num
    have v4 : wRaw ((1 : ℤ) - 1 / 2 : ℚ) = 23 / 48 := by
      unfold wRaw
      rw [show (((1 : ℤ) : ℚ) - 1 / 2) = 1 / 2 by norm_num,
        abs_of_nonneg (by norm_num)]
      norm_num
    have v5 : wRaw ((2 : ℤ) - 1 / 2 : ℚ) = 1 / 48 := by
      unfold wRaw
      rw [show (((2 : ℤ) : ℚ) - 1 / 2) = 3 / 2 by norm_num,
        abs_of_nonneg (by norm_num)]
      norm_num
    rw [v1, v2, v3, v4, v5]
    norm_num

/-- C2 amended: for every fractional offset `f ∈ [0,1)` the four stencil
offsets `-1-f, -f, 1-f, 2-f` lie in the kernel's asserted domain and their
weights sum to exactly 1; the five-point sum over `i = -2 … 2` equals 1
precisely in the boundary case `f = 0` (where the extra offset `-2` is
still in the domain and its weight vanishes). -/
theorem C2_partition_of_unity (f : ℚ) (h0 : 0 ≤ f) (h1 : f < 1) :
    (∀ i ∈ Finset.Icc (-1 : ℤ) 2, wDom ((i : ℚ) - f)) ∧
      ∑ i ∈ Finset.Icc (-1 : ℤ) 2, wRaw ((i : ℚ) - f) = 1 ∧
      (f = 0 → ∑ i ∈ Finset.Icc (-2 : ℤ) 2, wRaw ((i : ℚ) - f) = 1) := by
  obtain ⟨d1, d2, d3, d4⟩ := wDom_four f h0 h1
  refine ⟨?_, ?_, ?_⟩
  · intro i hi
    rw [Finset.mem_Icc] at hi
    obtain ⟨hl, hr⟩ := hi
    interval_cases i
    · rw [show (((-1 : ℤ) : ℚ) - f) = -1 - f by push_cast; ring]; exact d1
    · rw [show (((0 : ℤ) : ℚ) - f) = -f by push_cast; ring]; exact d2
    · rw [show (((1 : ℤ) : ℚ) - f) = 1 - f by push_cast; ring]; exact d3
    · rw [show (((2 : ℤ) : ℚ) - f) = 2 - f by push_cast; ring]; exact d4
  · have hf : ⌊f⌋ = 0 := Int.floor_eq_zero_iff.mpr ⟨h0, h1⟩
    have : Finset.Icc (-1 : ℤ) 2 = Finset.Icc (⌊f⌋ - 1) (⌊f⌋ + 2) := by
      rw [hf]; decide
    rw [this]
    exact wRaw_stencil_sum f
  · intro hf0
    subst hf0
    have hset : Finset.Icc (-2 : ℤ) 2 = {-2, -1, 0, 1, 2} := by decide
    rw [hset, Finset.sum_insert (by decide), Finset.sum_insert (by decide),
      Finset.sum_insert (by decide), Finset.sum_insert (by decide),
      Finset.sum_singleton]
    have v1 : wRaw ((-2 : ℤ) - 0 : ℚ) = 0 := by
      unfold wRaw
      rw [show (((-2 : ℤ) : ℚ) - 0) = -2 by norm_num, abs_neg,
        abs_of_nonneg (by norm_num)]
      norm_num
    have v2 : wRaw ((-1 : ℤ) - 0 : ℚ) = 1 / 6 := by
      unfold wRaw
      rw [show (((-1 : ℤ) : ℚ) - 0) = -1 by norm_num, abs_neg,
        abs_of_nonneg (by norm_num)]
      norm_num
    have v3 : wRaw ((0 : ℤ) - 0 : ℚ) = 2 / 3 := by
      unfold wRaw
      rw [show (((0 : ℤ) : ℚ) - 0) = 0 by norm_num, abs_zero]
      norm_num
    have v4 : wRaw ((1 : ℤ) - 0 : ℚ) = 1 / 6 := by
      unfold wRaw
      rw [show (((1 : ℤ) : ℚ) - 0) = 1 by norm_num,
        abs_of_nonneg (by norm_num)]
      norm_num
    have v5 : wRaw ((2 : ℤ) - 0 : ℚ) = 0 := by
      unfold wRaw
      rw [show (((2 : ℤ) : ℚ) - 0) = 2 by norm_num,
        abs_of_nonneg (by norm_num)]
      norm_num
    rw [v1, v2, v3, v4, v5]
    norm_num

/-- Witness for the amended C2 at `f = 1/2`. -/
theorem C2_partition_of_unity_witness :
    ((0 : ℚ) ≤ 1 / 2 ∧ (1 / 2 : ℚ) < 1) ∧
      ((∀ i ∈ Finset.Icc (-1 : ℤ) 2, wDom ((i : ℚ) - 1 / 2)) ∧
        ∑ i ∈ Finset.Icc (-1 : ℤ) 2, wRaw ((i : ℚ) - 1 / 2) = 1 ∧
        ((1 / 2 : ℚ) = 0 → ∑ i ∈ Finset.Icc (-2 : ℤ) 2, wRaw ((i : ℚ) - 1 / 2) = 1)) :=
  ⟨⟨by norm_num, by norm_num⟩,
    C2_partition_of_unity (1 / 2) (by norm_num) (by norm_num)⟩

/-- C3: in asynchronous mode the tick increment is
`original_t_int_increment - current_t_int % original_t_int_increment`, so
the advanced tick is a multiple of the chosen increment. -/
theorem C3_async_tick_alignment (pot tick : ℕ) (h : 0 < pot) :
    t_int_increment_of pot tick = pot - tick % pot ∧
      (tick + t_int_increment_of pot tick) % pot = 0 := by
  refine ⟨rfl, ?_⟩
  unfold t_int_increment_of
  have hd := Nat.div_add_mod tick pot
  have hr : tick % pot < pot := Nat.mod_lt tick h
  have he : tick + (pot - tick % pot) = pot * (tick / pot) + pot := by omega
  rw [he, show pot * (tick / pot) + pot = pot * (tick / pot + 1) by ring,
    Nat.mul_mod_right]

/-- Witness for C3: `current_tick = 5`, chosen power-of-two `4` yields
increment `3` and new tick `8`, a multiple of 4. -/
theorem C3_async_tick_alignment_witness :
    0 < 4 ∧ t_int_increment_of 4 5 = 3 ∧ 5 + t_int_increment_of 4 5 = 8 ∧
      (t_int_increment_of 4 5 = 4 - 5 % 4 ∧
        (5 + t_int_increment_of 4 5) % 4 = 0) :=
  ⟨by decide, by decide, by decide, C3_async_tick_alignment 4 5 (by decide)⟩

/-- C4: for a node in the band `0 < phi ≤ 1` with a negative (sticky)
friction coefficient, the output grid velocity equals the boundary's own
velocity `td • n`, whatever the incoming velocity was. -/
theorem C4_sticky_boundary (phi mu td : ℝ) (n vIn : V3R)
    (h1 : 0 < phi) (h2 : phi ≤ 1) (h3 : mu < 0) :
    gridBCNode phi mu td n vIn = td • n := by
  unfold gridBCNode
  rw [if_neg (by push_neg; exact ⟨h2, by linarith⟩)]
  dsimp only
  rw [if_pos h1, if_pos h3, zero_add]

/-- Witness for C4: `phi = 1/2`, `n = (0,1,0)`, boundary velocity 0,
incoming grid velocity `(1,−2,0)`, sticky friction `mu = -1` gives
output `(0,0,0)`. -/
theorem C4_sticky_boundary_witness :
    ((0 : ℝ) < 1 / 2 ∧ (1 / 2 : ℝ) ≤ 1 ∧ (-1 : ℝ) < 0) ∧
      gridBCNode (1 / 2) (-1) 0 ((0, 1, 0) : V3R) ((1, -2, 0) : V3R) =
        ((0, 0, 0) : V3R) := by
  refine ⟨⟨by norm_num, by norm_num, by norm_num⟩, ?_⟩
  rw [C4_sticky_boundary (1 / 2) (-1) 0 ((0, 1, 0) : V3R) ((1, -2, 0) : V3R)
    (by norm_num) (by norm_num) (by norm_num), zero_smul]
  rfl

/-- C5: in resample, the updated velocity of an `UPDATING` particle is the
pure grid gather when `apic` is enabled, and the FLIP-style
`v_old + (grid gather − backup gather)` when `apic` is disabled. -/
theorem C5_velocity_update (base_delta_t affine_damping : ℚ)
    (current_t_int : ℤ) (res : I3) (gv gvb : I3 → V3) (p : MParticle)
    (h : p.state = PState.updating) :
    (resampleP true base_delta_t affine_damping current_t_int res gv gvb p).v =
        gatherVel res gv p.pos ∧
      (resampleP false base_delta_t affine_damping current_t_int res gv gvb p).v =
        p.v + (gatherVel res gv p.pos - gatherVel res gvb p.pos) := by
  constructor
  · unfold resampleP
    rw [if_neg fun hc => hc h]
    dsimp only
    simp
  · unfold resampleP
    rw [if_neg fun hc => hc h]
    dsimp only
    simp
    abel

/-- Witness for C5 with a concrete updating particle and zero grids. -/
theorem C5_velocity_update_witness :
    (mkParticle (3/2, 3/2, 3/2) (1, 2, 3) PState.updating 0).state = PState.updating ∧
      ((resampleP true 1 0 1 (3, 3, 3) (fun _ => 0) (fun _ => 0)
          (mkParticle (3/2, 3/2, 3/2) (1, 2, 3) PState.updating 0)).v =
        gatherVel (3, 3, 3) (fun _ => 0)
          (mkParticle (3/2, 3/2, 3/2) (1, 2, 3) PState.updating 0).pos ∧
      (resampleP false 1 0 1 (3, 3, 3) (fun _ => 0) (fun _ => 0)
          (mkParticle (3/2, 3/2, 3/2) (1, 2, 3) PState.updating 0)).v =
        (mkParticle (3/2, 3/2, 3/2) (1, 2, 3) PState.updating 0).v +
          (gatherVel (3, 3, 3) (fun _ => 0)
              (mkParticle (3/2, 3/2, 3/2) (1, 2, 3) PState.updating 0).pos -
            gatherVel (3, 3, 3) (fun _ => 0)
              (mkParticle (3/2, 3/2, 3/2) (1, 2, 3) PState.updating 0).pos)) :=
  ⟨rfl, C5_velocity_update 1 0 1 (3, 3, 3) (fun _ => 0) (fun _ => 0) _ rfl⟩

/-- C6: an `UPDATING` particle whose bounded neighborhood has fewer than
64 contributing nodes gets a zero affine matrix, and every visited offset
stays inside the kernel's asserted domain (no assertion can fire). -/
theorem C6_partial_neighborhood (apic : Bool) (bdt ad : ℚ) (cti : ℤ)
    (res : I3) (gv gvb : I3 → V3) (p : MParticle)
    (h1 : p.state = PState.updating) (h2 : (region res p.pos).card < 64) :
    (resampleP apic bdt ad cti res gv gvb p).apic_b = 0 ∧
      ∀ ind ∈ region res p.pos, wDom3 (p.pos - v3ofI3 ind) := by
  constructor
  · unfold resampleP
    rw [if_neg fun hc => hc h1]
    dsimp only
    rw [if_pos (Or.inl (by omega))]
    exact smul_zero _
  · intro ind hind
    rw [mem_region_iff] at hind
    unfold wDom3
    simp only [Prod.fst_sub, Prod.snd_sub, v3ofI3]
    exact ⟨(wDom_sub_comm _ _).mpr (regionAxis_offset_dom _ _ _ hind.1),
      (wDom_sub_comm _ _).mpr (regionAxis_offset_dom _ _ _ hind.2.1),
      (wDom_sub_comm _ _).mpr (regionAxis_offset_dom _ _ _ hind.2.2)⟩

/-- Witness for C6: a particle at `(1/2,1/2,1/2)` has a clipped 3×3×3 =
27-node region. -/
theorem C6_partial_neighborhood_witness :
    ((mkParticle (1/2, 1/2, 1/2) 0 PState.updating 0).state = PState.updating ∧
      (region (4, 4, 4) (mkParticle (1/2, 1/2, 1/2) 0 PState.updating 0).pos).card < 64) ∧
      ((resampleP true 1 0 1 (4, 4, 4) (fun _ => 0) (fun _ => 0)
          (mkParticle (1/2, 1/2, 1/2) 0 PState.updating 0)).apic_b = 0 ∧
        ∀ ind ∈ region (4, 4, 4) (mkParticle (1/2, 1/2, 1/2) 0 PState.updating 0).pos,
          wDom3 ((mkParticle (1/2, 1/2, 1/2) 0 PState.updating 0).pos - v3ofI3 ind)) := by
  have hcard : (region (4, 4, 4)
      (mkParticle (1/2, 1/2, 1/2) 0 PState.updating 0).pos).card = 27 := by
    unfold region regionAxis mkParticle
    norm_num [Finset.card_product]
    decide
  exact ⟨⟨rfl, by rw [hcard]; omega⟩,
    C6_partial_neighborhood true 1 0 1 (4, 4, 4) (fun _ => 0) (fun _ => 0) _
      rfl (by rw [hcard]; omega)⟩

/-- C7: after rasterize, a node with positive accumulated mass has its
velocity divided by its mass, and a node with zero accumulated mass is
left untouched with a zero accumulated velocity (no division happens). -/
theorem C7_grid_normalization (ps : List MParticle) (res ind : I3)
    (hm : ∀ p ∈ ps, 0 ≤ p.mass) :
    (0 < rasterMass ps res ind →
      gridVelNorm ps res ind = (1 / rasterMass ps res ind) • rasterMom ps res ind) ∧
      (rasterMass ps res ind = 0 →
        gridVelNorm ps res ind = rasterMom ps res ind ∧
          rasterMom ps res ind = 0) := by
  constructor
  · intro h
    unfold gridVelNorm
    rw [if_pos h]
  · intro h
    unfold gridVelNorm
    rw [if_neg (by rw [h]; exact lt_irrefl 0)]
    exact ⟨rfl, rasterMom_of_mass_zero ps res ind hm h⟩

/-- Witness for C7 at a concrete one-particle configuration. -/
theorem C7_grid_normalization_witness :
    (∀ p ∈ [mkParticle (3/2, 3/2, 3/2) 0 PState.updating 0], (0 : ℚ) ≤ p.mass) ∧
      ((0 < rasterMass [mkParticle (3/2, 3/2, 3/2) 0 PState.updating 0] (3, 3, 3) (0, 0, 0) →
        gridVelNorm [mkParticle (3/2, 3/2, 3/2) 0 PState.updating 0] (3, 3, 3) (0, 0, 0) =
          (1 / rasterMass [mkParticle (3/2, 3/2, 3/2) 0 PState.updating 0] (3, 3, 3) (0, 0, 0)) •
            rasterMom [mkParticle (3/2, 3/2, 3/2) 0 PState.updating 0] (3, 3, 3) (0, 0, 0)) ∧
      (rasterMass [mkParticle (3/2, 3/2, 3/2) 0 PState.updating 0] (3, 3, 3) (0, 0, 0) = 0 →
        gridVelNorm [mkParticle (3/2, 3/2, 3/2) 0 PState.updating 0] (3, 3, 3) (0, 0, 0) =
          rasterMom [mkParticle (3/2, 3/2, 3/2) 0 PState.updating 0] (3, 3, 3) (0, 0, 0) ∧
        rasterMom [mkParticle (3/2, 3/2, 3/2) 0 PState.updating 0] (3, 3, 3) (0, 0, 0) = 0)) :=
  ⟨by norm_num [mkParticle],
    C7_grid_normalization _ _ _ (by norm_num [mkParticle])⟩

/-- C8: the integration step keeps every particle position inside
`[0, res)` per axis: an `UPDATING` particle is clamped into
`[0, res - eps]`, and any other particle keeps its (in-bounds) position. -/
theorem C8_position_clamped (cti : ℤ) (bdt eps : ℚ) (res : I3)
    (p : MParticle) (he : 0 < eps) (h1 : eps ≤ (res.1 : ℚ))
    (h2 : eps ≤ (res.2.1 : ℚ)) (h3 : eps ≤ (res.2.2 : ℚ))
    (hp : inBounds res p.pos) :
    inBounds res (integrateP cti bdt eps res p).pos := by
  unfold integrateP
  split_ifs with hs
  · dsimp only
    exact ⟨clampQ_mem _ _ _ he h1, clampQ_mem _ _ _ he h2,
      clampQ_mem _ _ _ he h3⟩
  · exact hp

/-- Witness for C8: a particle integrated far outside the domain is
clamped back into `[0, res)`. -/
theorem C8_position_clamped_witness :
    ((0 : ℚ) < 1/10 ∧ (1/10 : ℚ) ≤ ((4 : ℤ) : ℚ) ∧ (1/10 : ℚ) ≤ ((4 : ℤ) : ℚ) ∧
        (1/10 : ℚ) ≤ ((4 : ℤ) : ℚ) ∧
        inBounds (4, 4, 4) (mkParticle (1, 1, 1) (100, -100, 0) PState.updating 0).pos) ∧
      inBounds (4, 4, 4)
        (integrateP 10 1 (1/10) (4, 4, 4)
          (mkParticle (1, 1, 1) (100, -100, 0) PState.updating 0)).pos :=
  ⟨⟨by norm_num, by norm_num, by norm_num, by norm_num,
      by norm_num [inBounds, mkParticle]⟩,
    C8_position_clamped 10 1 (1/10) (4, 4, 4) _ (by norm_num) (by norm_num)
      (by norm_num) (by norm_num) (by norm_num [inBounds, mkParticle])⟩

/-- C9: when the `apic` flag is disabled, resample zeroes the affine
matrix of every `UPDATING` particle, whatever the neighborhood count. -/
theorem C9_apic_disabled_zero_affine (bdt ad : ℚ) (cti : ℤ) (res : I3)
    (gv gvb : I3 → V3) (p : MParticle) (h : p.state = PState.updating) :
    (resampleP false bdt ad cti res gv gvb p).apic_b = 0 := by
  unfold resampleP
  rw [if_neg fun hc => hc h]
  dsimp only
  rw [if_pos (Or.inr rfl)]
  exact smul_zero _

/-- Witness for C9 at a particle with a full 64-node neighborhood. -/
theorem C9_apic_disabled_zero_affine_witness :
    (mkParticle (3/2, 3/2, 3/2) (1, 2, 3) PState.updating 0).state = PState.updating ∧
      (resampleP false 1 0 1 (3, 3, 3) (fun _ => 0) (fun _ => 0)
        (mkParticle (3/2, 3/2, 3/2) (1, 2, 3) PState.updating 0)).apic_b = 0 :=
  ⟨rfl, C9_apic_disabled_zero_affine 1 0 1 (3, 3, 3) (fun _ => 0) (fun _ => 0) _ rfl⟩

/-- C10: resample and the position-integration step are the identity on
every particle whose state is `INACTIVE` or `BUFFER`. -/
theorem C10_only_updating_mutated (apic : Bool) (bdt ad eps : ℚ) (cti : ℤ)
    (res : I3) (gv gvb : I3 → V3) (p : MParticle)
    (h : p.state = PState.inactive ∨ p.state = PState.buffer) :
    resampleP apic bdt ad cti res gv gvb p = p ∧
      integrateP cti bdt eps res p = p := by
  rcases h with h | h <;> constructor <;> simp [resampleP, integrateP, h]

/-- Witness for C10 on a concrete `INACTIVE` particle. -/
theorem C10_only_updating_mutated_witness :
    ((mkParticle (1, 1, 1) (5, 6, 7) PState.inactive 0).state = PState.inactive ∨
        (mkParticle (1, 1, 1) (5, 6, 7) PState.inactive 0).state = PState.buffer) ∧
      (resampleP true 1 0 1 (3, 3, 3) (fun _ => 0) (fun _ => 0)
          (mkParticle (1, 1, 1) (5, 6, 7) PState.inactive 0) =
        mkParticle (1, 1, 1) (5, 6, 7) PState.inactive 0 ∧
      integrateP 1 1 (1/10) (3, 3, 3)
          (mkParticle (1, 1, 1) (5, 6, 7) PState.inactive 0) =
        mkParticle (1, 1, 1) (5, 6, 7) PState.inactive 0) :=
  ⟨Or.inl rfl,
    C10_only_updating_mutated true 1 0 (1/10) 1 (3, 3, 3) (fun _ => 0)
      (fun _ => 0) _ (Or.inl rfl)⟩
